import Mathlib

/-!
Verification development for the git-for-sql repository: a shallow embedding
of its SQL statement analysis, transaction planning, execution engine,
promotion gate, audit logging, GitHub metadata parsing and ledger
reconciliation, together with theorems settling the specification claims.

Machine strings are modelled as Lean `String`s (lists of characters); all
character-level scanning functions are written directly on `List Char`.
-/

namespace GitForSQL

set_option linter.unusedVariables false

/-- Whitespace test matching the JavaScript `\s` class on the ASCII range
(the only characters that occur in the inputs considered here). -/
def isWS (c : Char) : Bool := c == ' ' || c == '\n' || c == '\t' || c == '\r'

/-- Lower-case every character (JavaScript `toLowerCase` on ASCII). -/
def toLowerL (l : List Char) : List Char := l.map Char.toLower

/-- Upper-case every character (JavaScript `toUpperCase` on ASCII). -/
def toUpperL (l : List Char) : List Char := l.map Char.toUpper

/-- `startsWithL l pat` holds when `pat` is an initial segment of `l`. -/
def startsWithL : List Char → List Char → Bool
  | _, [] => true
  | [], _ :: _ => false
  | c :: cs, p :: ps => c == p && startsWithL cs ps

/-- Substring occurrence test (JavaScript `includes`). -/
def containsL : List Char → List Char → Bool
  | [], pat => pat.isEmpty
  | c :: cs, pat => startsWithL (c :: cs) pat || containsL cs pat

/-- `endsWithL l pat` holds when `pat` is a final segment of `l`. -/
def endsWithL (l pat : List Char) : Bool := startsWithL l.reverse pat.reverse

/-- Strip leading and trailing whitespace (JavaScript `trim`). -/
def trimL (l : List Char) : List Char :=
  ((l.dropWhile isWS).reverse.dropWhile isWS).reverse

/-- Split on a separator character, keeping empty segments
(JavaScript `split`). -/
def splitOnCharL (sep : Char) : List Char → List (List Char)
  | [] => [[]]
  | c :: rest =>
    if c == sep then [] :: splitOnCharL sep rest
    else
      match splitOnCharL sep rest with
      | [] => [[c]]
      | l :: ls => (c :: l) :: ls

mutual

/-- First comment pass, matching the `--.*$` multiline-regex replace the
repository uses (`ExecutionHistoryRow` in the script-detail route): inside
every line, text from the first `--` to the end of the line is deleted, the
newline itself kept. -/
def stripLineComments : List Char → List Char
  | [] => []
  | '-' :: '-' :: rest => dropLineComment rest
  | c :: rest => c :: stripLineComments rest

/-- Inside a `--` line comment: drop characters up to the newline. -/
def dropLineComment : List Char → List Char
  | [] => []
  | '\n' :: rest => '\n' :: stripLineComments rest
  | _ :: rest => dropLineComment rest

end

mutual

/-- Second comment pass, matching the non-nesting lazy regex replace of
`/* ... */` pairs the repository uses: each opener up to the nearest closer is
removed; an opener with no later closer matches nothing and stays. -/
def stripBlockComments : List Char → List Char
  | [] => []
  | '/' :: '*' :: rest => insideBlockComment [] rest
  | c :: rest => c :: stripBlockComments rest

/-- Inside a `/* */` block comment: skip to the nearest closer, remembering
the characters passed (in reverse) so that an unterminated comment can be
restored verbatim, as a regex replace would leave it. -/
def insideBlockComment (seen : List Char) : List Char → List Char
  | [] => '/' :: '*' :: seen.reverse
  | '*' :: '/' :: rest => stripBlockComments rest
  | c :: rest => insideBlockComment (c :: seen) rest

end

/-- Remove SQL comments the way the repository does: line comments first,
then block comments. -/
def stripComments (l : List Char) : List Char :=
  stripBlockComments (stripLineComments l)

/-- Result of `analyzeSQL` (the transient `StatementAnalysis` record). -/
structure SQLAnalysis where
  statementCount : Nat
  isAlreadyWrapped : Bool
  hasReturning : Bool
  isSelectQuery : Bool
  shouldCaptureRows : Bool
deriving Repr, DecidableEq

/-- Modelled from the spec: `analyzeSQL` of `app/lib/db.server.ts` (the file
itself is absent from the sources; its unit tests and callers are present).
Per spec section 4.1: comments are stripped first; `statementCount` counts the
statement terminators in the stripped text; `isAlreadyWrapped` holds when the
stripped, trimmed, case-normalised text begins with the transaction-start
keyword and ends with the transaction-commit keyword (a trailing terminator
tolerated, as the unit tests of `db.server.test.ts` require);
`hasReturning` is a case-insensitive search for the returning keyword in the
stripped text; `isSelectQuery` holds when the stripped trimmed text begins
with SELECT; `shouldCaptureRows = isSelectQuery OR hasReturning`. -/
def analyzeSQL (sql : String) : SQLAnalysis :=
  let cleaned := stripComments sql.data
  let upperTrim := toUpperL (trimL cleaned)
  let wrapped := startsWithL upperTrim ("BEGIN".data) &&
    (endsWithL upperTrim ("COMMIT".data) || endsWithL upperTrim ("COMMIT;".data))
  let ret := containsL (toLowerL cleaned) "returning".data
  let sel := startsWithL upperTrim ("SELECT".data)
  { statementCount := cleaned.count ';'
    isAlreadyWrapped := wrapped
    hasReturning := ret
    isSelectQuery := sel
    shouldCaptureRows := sel || ret }

/-- Modelled from the spec: `needsTransaction` of `app/lib/db.server.ts`
(absent from the sources), spec section 4.2:
`needsTransaction = statementCount > 1 AND NOT isAlreadyWrapped`. -/
def needsTransaction (sql : String) : Bool :=
  let a := analyzeSQL sql
  decide (a.statementCount > 1) && !a.isAlreadyWrapped

/-! ## Script metadata parsing (`parseSQLMetadata` of `app/lib/github.server.ts`) -/

/-- Metadata extracted from the leading comment block of a SQL script. -/
structure SQLMetadata where
  author : Option String := none
  purpose : Option String := none
  target : Option String := none
  date : Option String := none
  directProd : Option Bool := none
deriving Repr, DecidableEq

/-- Try to match the regex `--\s*DirectProd\s*:?\s*(true|yes|1)?` (with the
case-insensitivity flag) at the head of `l`.  `none` means no match here;
`some g` is a match whose optional capture group is `g`.  All the literal
fragments are disjoint from the whitespace class, so the greedy scan below is
exactly the backtracking regex semantics. -/
def directProdMatchAt (l : List Char) : Option (Option String) :=
  if startsWithL l ("--".data) then
    let r1 := (l.drop 2).dropWhile isWS
    if startsWithL (toLowerL r1) "directprod".data then
      let r2 := (r1.drop 10).dropWhile isWS
      let r3 := if startsWithL r2 [':'] then r2.drop 1 else r2
      let r4 := r3.dropWhile isWS
      let low4 := toLowerL r4
      some (if startsWithL low4 ("true".data) then some ⟨r4.take 4⟩
        else if startsWithL low4 ("yes".data) then some ⟨r4.take 3⟩
        else if startsWithL r4 ['1'] then some "1"
        else none)
    else none
  else none

/-- Leftmost match of the DirectProd marker regex in a line
(JavaScript `line.match(...)`). -/
def directProdMatch : List Char → Option (Option String)
  | [] => none
  | c :: rest =>
    match directProdMatchAt (c :: rest) with
    | some g => some g
    | none => directProdMatch rest

/-- The boolean the source assigns to `metadata.directProd` when a line hits
the marker branch: `match[1]` lower-cased equal to `true` or `yes`, or equal
to `1`, or the group absent; `false` when the regex does not match at all. -/
def directProdValue (line : List Char) : Bool :=
  match directProdMatch line with
  | none => false
  | some none => true
  | some (some v) =>
    let lv : String := ⟨toLowerL v.data⟩
    lv == "true" || lv == "yes" || v == "1"

/-- One step of the metadata scan: the `else if` chain the source runs on
each of the first 20 lines.  `line.replace` of a prefix the line starts with
is dropping that prefix (`-- Author:` has 10 characters, `-- Purpose:` 11,
`-- Target:` 10, `-- Date:` 8). -/
def processMetaLine (md : SQLMetadata) (line : List Char) : SQLMetadata :=
  let lowerLine := trimL (toLowerL line)
  if startsWithL line ("-- Author:".data) then
    { md with author := some ⟨trimL (line.drop 10)⟩ }
  else if startsWithL line ("-- Purpose:".data) then
    { md with purpose := some ⟨trimL (line.drop 11)⟩ }
  else if startsWithL line ("-- Target:".data) then
    { md with target := some ⟨trimL (line.drop 10)⟩ }
  else if startsWithL line ("-- Date:".data) then
    { md with date := some ⟨trimL (line.drop 8)⟩ }
  else if containsL lowerLine ("directprod".data) ||
      containsL lowerLine ("direct-prod".data) ||
      containsL lowerLine ("direct_prod".data) then
    { md with directProd := some (directProdValue line) }
  else md

/-- `parseSQLMetadata` of `app/lib/github.server.ts`: split the content on
newlines, keep the first 20 lines, and run the field scan over them. -/
def parseSQLMetadata (content : String) : SQLMetadata :=
  ((splitOnCharL '\n' content.data).take 20).foldl processMetaLine {}

/-- `extractTargetDatabase` of `app/lib/github.server.ts`: only metadata is
consulted; a `Target:` value equal, lower-cased, to `staging` or `production`
is returned (lower-cased), anything else yields `none`.  The file path
argument is accepted and ignored, as in the source. -/
def extractTargetDatabase (filePath : String) (content : Option String) :
    Option String :=
  match content with
  | some c =>
    match (parseSQLMetadata c).target with
    | some t =>
      let tl : String := ⟨toLowerL t.data⟩
      if tl == "staging" || tl == "production" then some tl else none
    | none => none
  | none => none

/-! ## Ledger reconciliation (`syncScriptsFromGitHub` of `github.server.ts`) -/

/-- A changed file of a pull request, as `getPRFiles` reports it. -/
structure SQLFile where
  filename : String
  status : String
deriving Repr, DecidableEq

/-- A merged pull request, as `getMergedPRs` reports it. -/
structure PRInfo where
  number : Nat
  html_url : String
deriving Repr, DecidableEq

/-- The GitHub collaborators the sync loop consults, as a pure change source:
the merged pull requests (already bounded and ordered newest-updated first),
each request's approvers and changed files, and file contents (`none` models
the `null` a deleted file produces; all these helpers catch their own network
errors and return empty or null results, so they are total functions here). -/
structure ChangeSource where
  mergedPRs : List PRInfo
  approversOf : Nat → List String
  filesOf : Nat → List SQLFile
  contentOf : String → Option String

/-- The record handed to `addApprovedScript` for one inserted ledger entry. -/
structure ScriptInsert where
  scriptName : String
  scriptContent : String
  targetDatabase : String
  githubPrUrl : String
  approvers : List String
  directProd : Bool
deriving Repr, DecidableEq

/-- The sync pass state: the `stats` counters of the source, the set of names
already in the ledger (the `existingSet`, which starts as the stored names
and grows as entries are inserted), and the entries inserted by this pass. -/
structure SyncState where
  synced : Nat
  skipped : Nat
  errors : Nat
  existing : List String
  inserted : List ScriptInsert
deriving Repr, DecidableEq

/-- Membership in the existing-name set (the JavaScript `Set.has`). -/
def containsName : List String → String → Bool
  | [], _ => false
  | x :: xs, n => x == n || containsName xs n

/-- `file.filename.split("/").pop() || file.filename`. -/
def scriptNameOf (filename : String) : String :=
  let last := (splitOnCharL '/' filename.data).getLastD []
  if last.isEmpty then filename else ⟨last⟩

/-- The SQL-file filter of the sync loop: `.sql` extension, not removed, and
inside the configured folder when one is set (an empty folder string is falsy
in the source and means no restriction). -/
def isEligibleFile (sqlFolder : String) (f : SQLFile) : Bool :=
  endsWithL f.filename.data (".sql".data) && f.status != "removed" &&
    (sqlFolder == "" || startsWithL f.filename.data sqlFolder.data)

/-- The target database recorded at insert time:
`extractTargetDatabase(file.filename, content) || "staging"`. -/
def syncTargetFor (filename content : String) : String :=
  (extractTargetDatabase filename (some content)).getD "staging"

/-- Per-file body of the sync loop.  A name already in the set, or content
that is `null` or empty (`!content` in the source), is a benign skip.
Insertion into the ledger is modelled as always succeeding:
`addApprovedScript` lives in the absent `audit.server.ts` and, per spec
section 4.6, inserts a new ScriptRecord; the source's failure branch (which
only increments `errors`) is therefore not reachable in this model, and the
`errors` counter stays 0. -/
def syncFile (cs : ChangeSource) (pr : PRInfo) (approvers : List String)
    (st : SyncState) (f : SQLFile) : SyncState :=
  let name := scriptNameOf f.filename
  if containsName st.existing name then
    { st with skipped := st.skipped + 1 }
  else
    match cs.contentOf f.filename with
    | none => { st with skipped := st.skipped + 1 }
    | some content =>
      if content == "" then { st with skipped := st.skipped + 1 }
      else
        let entry : ScriptInsert :=
          { scriptName := name
            scriptContent := content
            targetDatabase := syncTargetFor f.filename content
            githubPrUrl := pr.html_url
            approvers := approvers
            directProd := (parseSQLMetadata content).directProd == some true }
        { st with
          synced := st.synced + 1
          existing := name :: st.existing
          inserted := st.inserted ++ [entry] }

/-- The inner loop over the eligible SQL files of one pull request. -/
def syncFiles (cs : ChangeSource) (pr : PRInfo) (approvers : List String) :
    SyncState → List SQLFile → SyncState
  | st, [] => st
  | st, f :: fs => syncFiles cs pr approvers (syncFile cs pr approvers st f) fs

/-- Per-pull-request body of the sync loop: skip on insufficient approvals,
skip when no eligible SQL file remains, then process each file in listing
order. -/
def syncPR (cs : ChangeSource) (minApprovals : Nat) (sqlFolder : String)
    (st : SyncState) (pr : PRInfo) : SyncState :=
  let approvers := cs.approversOf pr.number
  if approvers.length < minApprovals then { st with skipped := st.skipped + 1 }
  else
    let sqlFiles := (cs.filesOf pr.number).filter (isEligibleFile sqlFolder)
    if sqlFiles.isEmpty then { st with skipped := st.skipped + 1 }
    else syncFiles cs pr approvers st sqlFiles

/-- The outer loop over the merged pull requests, in source order. -/
def syncPRs (cs : ChangeSource) (minApprovals : Nat) (sqlFolder : String) :
    SyncState → List PRInfo → SyncState
  | st, [] => st
  | st, pr :: prs =>
    syncPRs cs minApprovals sqlFolder (syncPR cs minApprovals sqlFolder st pr) prs

/-- `syncScriptsFromGitHub` of `app/lib/github.server.ts` as a pure pass:
start from the stored ledger names and fold the merged pull requests. -/
def syncScriptsFromGitHub (cs : ChangeSource) (existingNames : List String)
    (minApprovals : Nat) (sqlFolder : String) : SyncState :=
  syncPRs cs minApprovals sqlFolder
    { synced := 0, skipped := 0, errors := 0
      existing := existingNames, inserted := [] }
    cs.mergedPRs

/-! ## Execution engine (spec section 4.3; `executeSQL` of the absent
`app/lib/db.server.ts`) -/

/-- Outcome of one statement against a database of type `δ`: the new database
state and the affected-row count, or an error message.  Per-statement
atomicity (a failing statement leaves the database unchanged) is the
database's own guarantee, expressed by returning no new state on error. -/
inductive StmtOutcome (δ : Type) where
  | ok (db : δ) (rows : Nat)
  | err (msg : String)
deriving Repr, DecidableEq

/-- A statement interpreter: the semantics the target database gives to one
SQL string. -/
def ExecFn (δ : Type) := δ → String → StmtOutcome δ

/-- Terminator-delimited statements of a script — comments stripped, segments
trimmed, empty segments dropped: what a transaction-wrapped execution runs in
source order. -/
def splitStatements (sql : String) : List String :=
  ((splitOnCharL ';' (stripComments sql.data)).map
    (fun l => (⟨trimL l⟩ : String))).filter (fun s => !(s == ""))

/-- Run statements in order.  `Sum.inl` carries the final database, the
summed affected-row count and the trace of executed statements; `Sum.inr`
carries the first error and the trace of statements submitted up to and
including the failing one. -/
def execStmts {δ : Type} (exec : ExecFn δ) :
    δ → List String → (δ × Nat × List String) ⊕ (String × List String)
  | db, [] => Sum.inl (db, 0, [])
  | db, s :: rest =>
    match exec db s with
    | .ok db2 n =>
      match execStmts exec db2 rest with
      | Sum.inl (dbf, m, tr) => Sum.inl (dbf, n + m, s :: tr)
      | Sum.inr (e, tr) => Sum.inr (e, s :: tr)
    | .err e => Sum.inr (e, [s])

/-- The structured result `executeSQL` returns; it never throws.  `db` is the
state of the target database when the call returns, and `executed` is the
observational trace of statements submitted to the connection.  Wall-clock
duration is not modelled (`executionTime` is 0), and result-row capture is
not modelled (`resultRows` stays `none`); no claim depends on either. -/
structure EngineResult (δ : Type) where
  success : Bool
  db : δ
  rowsAffected : Option Nat
  resultRows : Option (List String)
  error : Option String
  executionTime : Nat
  executed : List String

/-- Modelled from the spec: `executeSQL` of the absent `app/lib/db.server.ts`
(spec section 4.3, and the rollback scenarios of `TESTING_TRANSACTIONS.md`).
When the planner demands a transaction, the statements run in order inside
begin/commit; the first failure triggers a rollback — the target database
reverts to its initial state — processing stops, and the result is
`success=false` with that statement's error and no partial row count.
Otherwise the single statement runs directly. -/
def executeSQL {δ : Type} (exec : ExecFn δ) (db : δ) (sqlText : String) :
    EngineResult δ :=
  if needsTransaction sqlText then
    match execStmts exec db (splitStatements sqlText) with
    | Sum.inl (db2, total, tr) =>
      { success := true, db := db2, rowsAffected := some total
        resultRows := none, error := none, executionTime := 0, executed := tr }
    | Sum.inr (e, tr) =>
      { success := false, db := db, rowsAffected := none
        resultRows := none, error := some e, executionTime := 0, executed := tr }
  else
    match exec db sqlText with
    | .ok db2 n =>
      { success := true, db := db2, rowsAffected := some n
        resultRows := none, error := none, executionTime := 0
        executed := [sqlText] }
    | .err e =>
      { success := false, db := db, rowsAffected := none
        resultRows := none, error := some e, executionTime := 0
        executed := [sqlText] }

/-! ## Promotion gate and the script-detail action (script-detail route) -/

/-- A ledger row as the script-detail route reads it. -/
structure ScriptRow where
  script_name : String
  script_content : String
  staging_executed : Bool
  production_executed : Bool
  direct_prod : Bool
  approvers : List String
  github_pr_url : Option String
deriving Repr, DecidableEq

/-- The production-gate predicate.  The script-detail component computes it
as `staging_executed || direct_prod`; the database-side
`canExecuteOnProduction` of the absent `db.server.ts` is modelled from the
spec, section 4.5: `canExecuteOnProduction(record) = record.stagingExecuted
OR record.directProd`. -/
def canExecuteOnProduction (s : ScriptRow) : Bool :=
  s.staging_executed || s.direct_prod

/-- Modelled from the spec: `updateScriptExecutionStatus` of the absent
`db.server.ts` (spec section 4.5): a successful run on a target sets that
target's executed flag; fields only move from false to true. -/
def updateScriptExecutionStatus (s : ScriptRow) (target : String) : ScriptRow :=
  if target == "production" then { s with production_executed := true }
  else { s with staging_executed := true }

/-- The entry the action hands to `logExecution`, field for field. -/
structure LogEntry where
  scriptName : String
  scriptContent : String
  executedBy : String
  targetDatabase : String
  status : String
  rowsAffected : Option Nat
  errorMessage : Option String
  executionTimeMs : Nat
  githubPrUrl : Option String
  approvers : List String
  resultData : Option (List String)

/-- Build the execution-log entry exactly as the action does:
`status: result.success ? "success" : "error"`, the engine's row count, error
and duration, and a snapshot of the script's origin metadata. -/
def mkLogEntry {δ : Type} (script : ScriptRow) (executedBy target : String)
    (r : EngineResult δ) : LogEntry :=
  { scriptName := script.script_name
    scriptContent := script.script_content
    executedBy := executedBy
    targetDatabase := target
    status := if r.success then "success" else "error"
    rowsAffected := r.rowsAffected
    errorMessage := r.error
    executionTimeMs := r.executionTime
    githubPrUrl := script.github_pr_url
    approvers := script.approvers
    resultData := r.resultRows }

/-- The rejection message of the promotion gate, verbatim from the action. -/
def gateMessage : String :=
  "Script must be executed successfully in staging first, or have -- DirectProd flag set"

/-- Plural suffix of the action's result message. -/
def pluralS (n : Nat) : String := if n != 1 then "s" else ""

/-- The success message of the action, verbatim reconstruction. -/
def successMessage {δ : Type} (r : EngineResult δ) : String :=
  let rows := r.resultRows.getD []
  let resultMsg :=
    if !rows.isEmpty then
      "Returned " ++ toString rows.length ++ " row" ++ pluralS rows.length
    else
      toString (r.rowsAffected.getD 0) ++ " row" ++
        pluralS (r.rowsAffected.getD 0) ++ " affected"
  "Successfully executed. " ++ resultMsg ++ " in " ++
    toString r.executionTime ++ "ms"

/-- The JSON payload the action returns to the caller. -/
structure ActionResult where
  success : Bool
  message : Option String
  error : Option String
deriving Repr, DecidableEq

/-- Observational trace of the action's side effects: how often the engine
was invoked, how often the audit recorder was invoked, which entries it
durably recorded, and how often the script-status update ran. -/
structure ActionTrace where
  execCalls : Nat
  logCalls : Nat
  recordedEntries : List LogEntry
  updateCalls : Nat

/-- The `action` of the script-detail route, from the promotion-gate check to
the returned payload.  An unauthorized production request returns the policy
rejection before `executeSQL`, `logExecution` or the status update run.
Otherwise the engine runs, the recorder is invoked once unconditionally
(`logFails` models `logExecution` throwing: the source catches the throw and
continues, so a failed recording leaves no durable entry but changes nothing
else), the status update runs only on success, and the payload mirrors the
source's two return branches, including the JavaScript falsy fallback on an
empty error string.  Authentication and the script lookup sit above the
modelled region and do not bear on the claims. -/
def runAction {δ : Type} (exec : ExecFn δ) (logFails : Bool)
    (script : ScriptRow) (targetDatabase executedBy : String) (db : δ) :
    ActionResult × ScriptRow × δ × ActionTrace :=
  if targetDatabase == "production" && !(canExecuteOnProduction script) then
    ({ success := false, message := none, error := some gateMessage },
      script, db, ⟨0, 0, [], 0⟩)
  else
    let result := executeSQL exec db script.script_content
    let entry := mkLogEntry script executedBy targetDatabase result
    let recorded := if logFails then [] else [entry]
    let script2 :=
      if result.success then updateScriptExecutionStatus script targetDatabase
      else script
    let payload : ActionResult :=
      if result.success then
        { success := true, message := some (successMessage result), error := none }
      else
        { success := false, message := none
          error := some (match result.error with
            | some e => if e == "" then "Execution failed with unknown error" else e
            | none => "Execution failed with unknown error") }
    (payload, script2, result.db,
      ⟨1, 1, recorded, if result.success then 1 else 0⟩)

/-! ## Webhook signature verification (`verifyWebhookSignature`) -/

/-- `verifyWebhookSignature` of `app/lib/github.server.ts`, with the HMAC
hex digest abstracted as a function parameter: when no webhook secret is
configured (the empty string, falsy in the source), verification is skipped
and every payload accepted; otherwise the signature must equal `sha256=`
followed by the digest of the payload under the secret. -/
def verifyWebhookSignature (hmacHex : String → String → String)
    (webhookSecret payload signature : String) : Bool :=
  if webhookSecret == "" then true
  else signature == "sha256=" ++ hmacHex webhookSecret payload

/-! ## Concrete sample inputs used by witnesses and counterexamples -/

/-- A toy statement interpreter over a database modelled as the list of
applied statements: the statement `BAD` fails, everything else appends
itself and reports one affected row. -/
def toyExec : ExecFn (List String) := fun db s =>
  if s == "BAD" then .err "boom" else .ok (s :: db) 1

/-- A fresh ledger row: approved, never executed anywhere, no override. -/
def freshScript : ScriptRow :=
  { script_name := "add_column.sql"
    script_content := "SELECT 1;"
    staging_executed := false
    production_executed := false
    direct_prod := false
    approvers := ["reviewer1", "reviewer2"]
    github_pr_url := some "https://github.com/org/repo/pull/7" }

/-- A multi-statement script whose second statement fails under `toyExec`. -/
def failingScript : ScriptRow :=
  { freshScript with script_content := "INSERT one; BAD; INSERT three;" }

/-- Twenty-five plain lines followed by an Author line: metadata past the
scanned window (the window test of the repository's unit suite). -/
def contentPast20 : String :=
  String.intercalate "\n" (List.replicate 25 "SELECT 1;") ++
    "\n-- Author: Should Not Parse"

/-- Fifteen comment lines, then an Author line inside the window. -/
def contentWithin20 : String :=
  String.intercalate "\n" (List.replicate 15 "-- Comment") ++
    "\n-- Author: Should Parse\nSELECT 1;"

/-- A write query whose only returning keyword sits inside comments. -/
def commentedReturning : String :=
  "-- This query is not returning anything\n/* we could use RETURNING here */\nUPDATE charges SET amount = 500 WHERE id = 123;"

/-- Invariant of a sync pass that starts from the ledger names `base`: no
inserted entry carries a name that was already in the ledger, the inserted
names are pairwise distinct, every inserted name has been added to the
running name set, and the running name set still covers `base`. -/
def InsertInv (base : List String) (st : SyncState) : Prop :=
  (∀ entry ∈ st.inserted, containsName base entry.scriptName = false) ∧
  (st.inserted.map ScriptInsert.scriptName).Nodup ∧
  (∀ entry ∈ st.inserted, containsName st.existing entry.scriptName = true) ∧
  (∀ n : String, containsName base n = true →
    containsName st.existing n = true)

/-- A one-PR, one-file change source used to witness the sync theorems. -/
def sampleSource : ChangeSource :=
  { mergedPRs := [⟨7, "https://github.com/org/repo/pull/7"⟩]
    approversOf := fun _ => ["reviewer1", "reviewer2"]
    filesOf := fun _ => [⟨"sql/add_column.sql", "added"⟩]
    contentOf := fun p =>
      if p == "sql/add_column.sql" then some "-- Author: A\nSELECT 1;"
      else none }

/-- The single ledger entry a pass over `sampleSource` inserts. -/
def sampleEntry : ScriptInsert :=
  { scriptName := "add_column.sql"
    scriptContent := "-- Author: A\nSELECT 1;"
    targetDatabase := "staging"
    githubPrUrl := "https://github.com/org/repo/pull/7"
    approvers := ["reviewer1", "reviewer2"]
    directProd := false }

/-! ## Helper lemmas -/

theorem containsName_nil (n : String) : containsName [] n = false := rfl

theorem containsName_cons (x : String) (xs : List String) (n : String) :
    containsName (x :: xs) n = (x == n || containsName xs n) := rfl

theorem containsName_self (x : String) (xs : List String) :
    containsName (x :: xs) x = true := by
  rw [containsName_cons, beq_self_eq_true]
  rfl

/-! ## Claim theorems -/

/-- C4: for every script record, `canExecuteOnProduction` equals
`stagingExecuted OR directProd`: it is false for a fresh record with both
flags false, and true as soon as either flag is true. -/
theorem c4_canExecuteOnProduction_eq_or (s : ScriptRow) :
    canExecuteOnProduction s = (s.staging_executed || s.direct_prod) ∧
    (s.staging_executed = false → s.direct_prod = false →
      canExecuteOnProduction s = false) ∧
    (s.staging_executed = true ∨ s.direct_prod = true →
      canExecuteOnProduction s = true) := by
  refine ⟨rfl, ?_, ?_⟩
  · intro h1 h2
    simp [canExecuteOnProduction, h1, h2]
  · intro h
    rcases h with h | h <;> simp [canExecuteOnProduction, h]

/-- Witness for C4 at concrete records: the gate is closed on a fresh record
and open once the staging flag (or the override flag) is set. -/
theorem c4_witness :
    canExecuteOnProduction freshScript = false ∧
    canExecuteOnProduction { freshScript with staging_executed := true } = true ∧
    canExecuteOnProduction { freshScript with direct_prod := true } = true :=
  ⟨(c4_canExecuteOnProduction_eq_or freshScript).2.1 rfl rfl,
    (c4_canExecuteOnProduction_eq_or _).2.2 (Or.inl rfl),
    (c4_canExecuteOnProduction_eq_or _).2.2 (Or.inr rfl)⟩

/-- C10: when no webhook secret is configured (the empty string),
`verifyWebhookSignature` accepts every payload and every signature, for any
HMAC digest function — verification is skipped rather than failing closed. -/
theorem c10_no_secret_accepts_everything
    (hmacHex : String → String → String) (payload signature : String) :
    verifyWebhookSignature hmacHex "" payload signature = true := by
  simp [verifyWebhookSignature]

/-- C3: `needsTransaction` is true exactly when the comment-stripped text has
more than one statement terminator and the text is not already wrapped in a
transaction-begin/commit pair; `SELECT * FROM t;;` yields true (two
terminators), and an already wrapped text yields false regardless of
statement count. -/
theorem c3_needsTransaction_characterisation :
    (∀ sql : String, needsTransaction sql = true ↔
      (1 < (stripComments sql.data).count ';' ∧
        (analyzeSQL sql).isAlreadyWrapped = false)) ∧
    needsTransaction "SELECT * FROM t;;" = true ∧
    (∀ sql : String, (analyzeSQL sql).isAlreadyWrapped = true →
      needsTransaction sql = false) := by
  refine ⟨?_, by decide, ?_⟩
  · intro sql
    simp only [needsTransaction, analyzeSQL, Bool.and_eq_true, decide_eq_true_eq,
      Bool.not_eq_true']
  · intro sql h
    simp only [needsTransaction, h, Bool.not_true, Bool.and_false]

/-- Witness for C3: the characterisation applied at the wrapped multi-statement
script of the repository's unit suite, and at the double-terminator literal. -/
theorem c3_witness :
    needsTransaction "begin; SELECT 1; SELECT 2; commit;" = false ∧
    (1 < (stripComments ("SELECT * FROM t;;".data)).count ';' ∧
      (analyzeSQL "SELECT * FROM t;;").isAlreadyWrapped = false) :=
  ⟨c3_needsTransaction_characterisation.2.2 _ (by decide),
    (c3_needsTransaction_characterisation.1 _).mp
      c3_needsTransaction_characterisation.2.1⟩

/-- C6: `shouldCaptureRows = isSelectOnly OR hasReturningClause`;
`hasReturningClause` holds exactly when the returning keyword occurs,
case-insensitively, in the comment-stripped text (that is, outside line and
block comments); a RETURNING that occurs only inside comments of a write
query yields `hasReturningClause = false` and `shouldCaptureRows = false`. -/
theorem c6_shouldCaptureRows_characterisation :
    (∀ sql : String, (analyzeSQL sql).shouldCaptureRows =
      ((analyzeSQL sql).isSelectQuery || (analyzeSQL sql).hasReturning)) ∧
    (∀ sql : String, (analyzeSQL sql).hasReturning = true ↔
      containsL (toLowerL (stripComments sql.data)) ("returning".data) = true) ∧
    (analyzeSQL commentedReturning).hasReturning = false ∧
    (analyzeSQL commentedReturning).isSelectQuery = false ∧
    (analyzeSQL commentedReturning).shouldCaptureRows = false := by
  refine ⟨fun sql => rfl, fun sql => Iff.rfl, by decide, by decide, by decide⟩

/-- C9: a scanned DirectProd marker line whose explicit value is not
true/yes/1 still sets the flag: on `-- DirectProd: false` the regex matches
with an empty capture group and the flag becomes true (likewise for
`-- DirectProd: no`); a hyphenated or underscored spelling passes the
candidate test but fails the stricter marker pattern, so the flag is set to
false. -/
theorem c9_directProd_marker_quirk :
    (parseSQLMetadata "-- DirectProd: false\nSELECT 1;").directProd = some true ∧
    directProdMatch ("-- DirectProd: false".data) = some none ∧
    (parseSQLMetadata "-- DirectProd: no\nSELECT 1;").directProd = some true ∧
    (parseSQLMetadata "-- Direct-Prod: true\nSELECT 1;").directProd = some false ∧
    (parseSQLMetadata "-- Direct_Prod: true\nSELECT 1;").directProd = some false := by
  refine ⟨by decide, by decide, by decide, by decide, by decide⟩

/-- C8 counterexample: field names are matched case-sensitively, not
case-insensitively as claimed — a lower-case `-- author:` (or `-- target:`)
line inside the scanned window is not extracted at all. -/
theorem c8_counterexample_lowercase_fields_ignored :
    (parseSQLMetadata "-- author: Jane\n-- target: production\nSELECT 1;").author
      = none ∧
    parseSQLMetadata "-- author: Jane\n-- target: production\nSELECT 1;" = {} := by
  refine ⟨by decide, by decide⟩

/-- C8 amended: the leading metadata block is parsed with CASE-SENSITIVE
field names in the exact spellings `-- Author:`, `-- Purpose:`, `-- Target:`,
`-- Date:` (only the DirectProd marker is case-insensitive); only the first
20 lines are scanned, so later lines contribute no metadata; and a Target
value other than staging/production is ignored, the sync target falling back
to staging. -/
theorem c8_metadata_window_and_fallback :
    parseSQLMetadata
        "-- Author: John Doe\n-- Purpose: Add new column\n-- Target: production\n-- Date: 2024-01-15\nSELECT 1;" =
      { author := some "John Doe", purpose := some "Add new column"
        target := some "production", date := some "2024-01-15" } ∧
    (parseSQLMetadata contentPast20).author = none ∧
    (parseSQLMetadata contentWithin20).author = some "Should Parse" ∧
    extractTargetDatabase "test.sql" (some "-- Target: invalid\nSELECT 1;") = none ∧
    syncTargetFor "test.sql" "-- Target: invalid\nSELECT 1;" = "staging" ∧
    syncTargetFor "test.sql" "-- Target: PRODUCTION\nSELECT 1;" = "production" := by
  refine ⟨by decide, by decide, by decide, by decide, by decide, by decide⟩

/-- C1: a production request on a record with `stagingExecuted = false` and
`directProd = false` is rejected before any database execution: the engine is
never invoked, no execution-log entry is written, the script record and the
target database are unchanged, and the caller receives a failure whose error
is the fixed policy message naming the missing precondition (staging not yet
run, no override flag) rather than anything the engine produced. -/
theorem c1_production_gate_short_circuits {δ : Type} (exec : ExecFn δ)
    (logFails : Bool) (script : ScriptRow) (executedBy : String) (db : δ)
    (hstg : script.staging_executed = false)
    (hdp : script.direct_prod = false) :
    runAction exec logFails script "production" executedBy db =
      ({ success := false, message := none, error := some gateMessage },
        script, db, ⟨0, 0, [], 0⟩) ∧
    containsL (gateMessage.data) ("staging".data) = true ∧
    containsL (gateMessage.data) ("DirectProd".data) = true := by
  refine ⟨?_, by decide, by decide⟩
  simp [runAction, canExecuteOnProduction, hstg, hdp]

/-- Witness for C1: the rejection at a concrete fresh record, with a concrete
engine and an empty target database. -/
theorem c1_witness :
    runAction toyExec false freshScript "production" "alice@example.com"
        ([] : List String) =
      ({ success := false, message := none, error := some gateMessage },
        freshScript, [], ⟨0, 0, [], 0⟩) ∧
    containsL (gateMessage.data) ("staging".data) = true ∧
    containsL (gateMessage.data) ("DirectProd".data) = true :=
  c1_production_gate_short_circuits toyExec false freshScript
    "alice@example.com" [] rfl rfl

/-- C7: once a request is past the promotion gate, the audit recorder is
invoked exactly once per execution attempt, whether the execution succeeded
or failed; and when the recording itself throws, the failure is confined: no
durable entry is written, but the same payload is still returned, the same
database state results, and the success-path status update still runs. -/
theorem c7_audit_once_and_isolated {δ : Type} (exec : ExecFn δ)
    (script : ScriptRow) (target executedBy : String) (db : δ)
    (hgate : (target == "production" && !(canExecuteOnProduction script))
      = false) :
    (runAction exec true script target executedBy db).2.2.2.logCalls = 1 ∧
    (runAction exec false script target executedBy db).2.2.2.logCalls = 1 ∧
    (runAction exec true script target executedBy db).1 =
      (runAction exec false script target executedBy db).1 ∧
    (runAction exec true script target executedBy db).2.1 =
      (runAction exec false script target executedBy db).2.1 ∧
    (runAction exec true script target executedBy db).2.2.1 =
      (runAction exec false script target executedBy db).2.2.1 ∧
    (runAction exec true script target executedBy db).2.2.2.updateCalls =
      (runAction exec false script target executedBy db).2.2.2.updateCalls ∧
    (runAction exec false script target executedBy db).2.2.2.recordedEntries =
      [mkLogEntry script executedBy target
        (executeSQL exec db script.script_content)] ∧
    (runAction exec true script target executedBy db).2.2.2.recordedEntries
      = [] := by
  simp [runAction, hgate]

/-- Witness for C7: the recorder runs exactly once for a successful staging
execution and exactly once for a failing one, at concrete inputs. -/
theorem c7_witness :
    (runAction toyExec true freshScript "staging" "alice@example.com"
      ([] : List String)).2.2.2.logCalls = 1 ∧
    (runAction toyExec false freshScript "staging" "alice@example.com"
      ([] : List String)).2.2.2.logCalls = 1 ∧
    (runAction toyExec false failingScript "staging" "alice@example.com"
      ([] : List String)).2.2.2.logCalls = 1 :=
  ⟨(c7_audit_once_and_isolated toyExec freshScript "staging"
      "alice@example.com" [] (by decide)).1,
    (c7_audit_once_and_isolated toyExec freshScript "staging"
      "alice@example.com" [] (by decide)).2.1,
    (c7_audit_once_and_isolated toyExec failingScript "staging"
      "alice@example.com" [] (by decide)).2.1⟩

theorem execStmts_err_decomp {δ : Type} (exec : ExecFn δ) :
    ∀ (stmts : List String) (db : δ) (e : String) (tr : List String),
      execStmts exec db stmts = Sum.inr (e, tr) →
      ∃ rest, stmts = tr ++ rest := by
  intro stmts
  induction stmts with
  | nil =>
    intro db e tr h
    simp [execStmts] at h
  | cons s rest ih =>
    intro db e tr h
    cases hx : exec db s with
    | ok db2 n =>
      cases hy : execStmts exec db2 rest with
      | inl p =>
        obtain ⟨dbf, m, tr2⟩ := p
        simp [execStmts, hx, hy] at h
      | inr q =>
        obtain ⟨e2, tr2⟩ := q
        simp only [execStmts, hx, hy, Sum.inr.injEq, Prod.mk.injEq] at h
        obtain ⟨he, ht⟩ := h
        obtain ⟨rest2, hr⟩ := ih db2 e2 tr2 hy
        exact ⟨rest2, by simp [← ht, hr]⟩
    | err e2 =>
      simp only [execStmts, hx, Sum.inr.injEq, Prod.mk.injEq] at h
      obtain ⟨he, ht⟩ := h
      exact ⟨rest, by simp [← ht]⟩

/-- C2: a multi-statement script run under a planner-added transaction in
which some statement fails: the engine rolls back, so the target database is
back in its initial state; the statements after the failing one are never
submitted (the executed trace is an initial segment of the statement list);
the result has `success = false`, that statement's error, and no partial row
count; and the log entry the action records for the attempt has
`status = "error"`. -/
theorem c2_rollback_on_midtransaction_failure {δ : Type} (exec : ExecFn δ)
    (db : δ) (script : ScriptRow) (e : String) (tr : List String)
    (hneeds : needsTransaction script.script_content = true)
    (hfail : execStmts exec db (splitStatements script.script_content) =
      Sum.inr (e, tr)) :
    executeSQL exec db script.script_content =
      { success := false, db := db, rowsAffected := none, resultRows := none
        error := some e, executionTime := 0, executed := tr } ∧
    (∃ rest, splitStatements script.script_content = tr ++ rest) ∧
    (∀ executedBy target : String,
      (mkLogEntry script executedBy target
        (executeSQL exec db script.script_content)).status = "error") := by
  have hexe : executeSQL exec db script.script_content =
      { success := false, db := db, rowsAffected := none, resultRows := none
        error := some e, executionTime := 0, executed := tr } := by
    simp [executeSQL, hneeds, hfail]
  refine ⟨hexe, execStmts_err_decomp exec _ db e tr hfail, ?_⟩
  intro executedBy target
  rw [hexe]
  rfl

/-- Witness for C2: a three-statement script whose second statement fails
under `toyExec`; the database reverts to its initial (empty) state and the
third statement is absent from the executed trace. -/
theorem c2_witness :
    needsTransaction failingScript.script_content = true ∧
    execStmts toyExec ([] : List String)
        (splitStatements failingScript.script_content) =
      Sum.inr ("boom", ["INSERT one", "BAD"]) ∧
    executeSQL toyExec ([] : List String) failingScript.script_content =
      { success := false, db := [], rowsAffected := none, resultRows := none
        error := some "boom", executionTime := 0
        executed := ["INSERT one", "BAD"] } :=
  ⟨by decide, by decide,
    (c2_rollback_on_midtransaction_failure toyExec [] failingScript "boom"
      ["INSERT one", "BAD"] (by decide) (by decide)).1⟩

theorem syncFile_existing_mono (cs : ChangeSource) (pr : PRInfo)
    (approvers : List String) (st : SyncState) (f : SQLFile) (n : String)
    (h : containsName st.existing n = true) :
    containsName (syncFile cs pr approvers st f).existing n = true := by
  cases hcn : containsName st.existing (scriptNameOf f.filename) with
  | true => simpa [syncFile, hcn] using h
  | false =>
    cases hc : cs.contentOf f.filename with
    | none => simpa [syncFile, hcn, hc] using h
    | some content =>
      cases hce : content == "" with
      | true => simpa [syncFile, hcn, hc, hce] using h
      | false => simp [syncFile, hcn, hc, hce, containsName_cons, h]

theorem syncFiles_existing_mono (cs : ChangeSource) (pr : PRInfo)
    (approvers : List String) :
    ∀ (fs : List SQLFile) (st : SyncState) (n : String),
      containsName st.existing n = true →
      containsName (syncFiles cs pr approvers st fs).existing n = true := by
  intro fs
  induction fs with
  | nil => intro st n h; simpa [syncFiles] using h
  | cons f fs ih =>
    intro st n h
    simp only [syncFiles]
    exact ih _ n (syncFile_existing_mono cs pr approvers st f n h)

theorem syncFile_covers (cs : ChangeSource) (pr : PRInfo)
    (approvers : List String) (st : SyncState) (f : SQLFile) (c : String)
    (hc : cs.contentOf f.filename = some c) (hne : (c == "") = false) :
    containsName (syncFile cs pr approvers st f).existing
      (scriptNameOf f.filename) = true := by
  cases hcn : containsName st.existing (scriptNameOf f.filename) with
  | true => simp [syncFile, hcn]
  | false => simp [syncFile, hcn, hc, hne, containsName_self]

theorem syncFiles_covers (cs : ChangeSource) (pr : PRInfo)
    (approvers : List String) :
    ∀ (fs : List SQLFile) (st : SyncState) (f : SQLFile), f ∈ fs →
      ∀ c : String, cs.contentOf f.filename = some c → (c == "") = false →
      containsName (syncFiles cs pr approvers st fs).existing
        (scriptNameOf f.filename) = true := by
  intro fs
  induction fs with
  | nil => intro st f hf; cases hf
  | cons g gs ih =>
    intro st f hf c hc hne
    simp only [syncFiles]
    rcases List.mem_cons.mp hf with rfl | hmem
    · exact syncFiles_existing_mono cs pr approvers gs _ _
        (syncFile_covers cs pr approvers st f c hc hne)
    · exact ih _ f hmem c hc hne

theorem syncFiles_no_new (cs : ChangeSource) (pr : PRInfo)
    (approvers : List String) :
    ∀ (fs : List SQLFile) (st : SyncState),
      (∀ f ∈ fs, ∀ c : String, cs.contentOf f.filename = some c →
        (c == "") = false →
        containsName st.existing (scriptNameOf f.filename) = true) →
      (syncFiles cs pr approvers st fs).existing = st.existing ∧
      (syncFiles cs pr approvers st fs).inserted = st.inserted ∧
      (syncFiles cs pr approvers st fs).synced = st.synced := by
  intro fs
  induction fs with
  | nil => intro st h; exact ⟨rfl, rfl, rfl⟩
  | cons g gs ih =>
    intro st h
    have hskip : (syncFile cs pr approvers st g).existing = st.existing ∧
        (syncFile cs pr approvers st g).inserted = st.inserted ∧
        (syncFile cs pr approvers st g).synced = st.synced := by
      cases hcn : containsName st.existing (scriptNameOf g.filename) with
      | true => simp [syncFile, hcn]
      | false =>
        cases hc : cs.contentOf g.filename with
        | none => simp [syncFile, hcn, hc]
        | some content =>
          cases hce : content == "" with
          | true => simp [syncFile, hcn, hc, hce]
          | false =>
            have hcov := h g (List.mem_cons_self g gs) content hc hce
            rw [hcn] at hcov
            cases hcov
    obtain ⟨he, hi, hs⟩ := hskip
    have hrec := ih (syncFile cs pr approvers st g) (by
      intro f hf c hc hne
      rw [he]
      exact h f (List.mem_cons_of_mem g hf) c hc hne)
    simp only [syncFiles]
    exact ⟨hrec.1.trans he, hrec.2.1.trans hi, hrec.2.2.trans hs⟩

theorem syncPR_existing_mono (cs : ChangeSource) (minA : Nat)
    (folder : String) (st : SyncState) (pr : PRInfo) (n : String)
    (h : containsName st.existing n = true) :
    containsName (syncPR cs minA folder st pr).existing n = true := by
  simp only [syncPR]
  split
  · exact h
  · split
    · exact h
    · exact syncFiles_existing_mono cs pr _ _ _ n h

theorem syncPRs_existing_mono (cs : ChangeSource) (minA : Nat)
    (folder : String) :
    ∀ (prs : List PRInfo) (st : SyncState) (n : String),
      containsName st.existing n = true →
      containsName (syncPRs cs minA folder st prs).existing n = true := by
  intro prs
  induction prs with
  | nil => intro st n h; simpa [syncPRs] using h
  | cons q qs ih =>
    intro st n h
    simp only [syncPRs]
    exact ih _ n (syncPR_existing_mono cs minA folder st q n h)

theorem syncPR_covers (cs : ChangeSource) (minA : Nat) (folder : String)
    (st : SyncState) (pr : PRInfo) (f : SQLFile)
    (hgate : ¬((cs.approversOf pr.number).length < minA))
    (hf : f ∈ (cs.filesOf pr.number).filter (isEligibleFile folder))
    (c : String) (hc : cs.contentOf f.filename = some c)
    (hne : (c == "") = false) :
    containsName (syncPR cs minA folder st pr).existing
      (scriptNameOf f.filename) = true := by
  simp only [syncPR]
  split
  · rename_i hlt
    exact absurd hlt hgate
  · split
    · rename_i hemp
      rw [List.isEmpty_iff] at hemp
      rw [hemp] at hf
      cases hf
    · exact syncFiles_covers cs pr _ _ _ f hf c hc hne

theorem syncPRs_covers (cs : ChangeSource) (minA : Nat) (folder : String) :
    ∀ (prs : List PRInfo) (st : SyncState) (pr : PRInfo), pr ∈ prs →
      ¬((cs.approversOf pr.number).length < minA) →
      ∀ f ∈ (cs.filesOf pr.number).filter (isEligibleFile folder),
      ∀ c : String, cs.contentOf f.filename = some c → (c == "") = false →
      containsName (syncPRs cs minA folder st prs).existing
        (scriptNameOf f.filename) = true := by
  intro prs
  induction prs with
  | nil => intro st pr hpr; cases hpr
  | cons q qs ih =>
    intro st pr hpr hgate f hf c hc hne
    simp only [syncPRs]
    rcases List.mem_cons.mp hpr with rfl | hmem
    · exact syncPRs_existing_mono cs minA folder qs _ _
        (syncPR_covers cs minA folder st pr f hgate hf c hc hne)
    · exact ih _ pr hmem hgate f hf c hc hne

theorem syncPR_no_new (cs : ChangeSource) (minA : Nat) (folder : String)
    (st : SyncState) (pr : PRInfo)
    (h : ¬((cs.approversOf pr.number).length < minA) →
      ∀ f ∈ (cs.filesOf pr.number).filter (isEligibleFile folder),
      ∀ c : String, cs.contentOf f.filename = some c → (c == "") = false →
      containsName st.existing (scriptNameOf f.filename) = true) :
    (syncPR cs minA folder st pr).existing = st.existing ∧
    (syncPR cs minA folder st pr).inserted = st.inserted ∧
    (syncPR cs minA folder st pr).synced = st.synced := by
  simp only [syncPR]
  split
  · exact ⟨rfl, rfl, rfl⟩
  · rename_i hgate
    split
    · exact ⟨rfl, rfl, rfl⟩
    · exact syncFiles_no_new cs pr _ _ st (h hgate)

theorem syncPRs_no_new (cs : ChangeSource) (minA : Nat) (folder : String) :
    ∀ (prs : List PRInfo) (st : SyncState),
      (∀ pr ∈ prs, ¬((cs.approversOf pr.number).length < minA) →
        ∀ f ∈ (cs.filesOf pr.number).filter (isEligibleFile folder),
        ∀ c : String, cs.contentOf f.filename = some c → (c == "") = false →
        containsName st.existing (scriptNameOf f.filename) = true) →
      (syncPRs cs minA folder st prs).existing = st.existing ∧
      (syncPRs cs minA folder st prs).inserted = st.inserted ∧
      (syncPRs cs minA folder st prs).synced = st.synced := by
  intro prs
  induction prs with
  | nil => intro st h; exact ⟨rfl, rfl, rfl⟩
  | cons q qs ih =>
    intro st h
    have hq := syncPR_no_new cs minA folder st q
      (fun hgate => h q (List.mem_cons_self q qs) hgate)
    obtain ⟨he, hi, hs⟩ := hq
    have hrec := ih (syncPR cs minA folder st q) (by
      intro pr hpr hgate f hf c hc hne
      rw [he]
      exact h pr (List.mem_cons_of_mem q hpr) hgate f hf c hc hne)
    simp only [syncPRs]
    exact ⟨hrec.1.trans he, hrec.2.1.trans hi, hrec.2.2.trans hs⟩

theorem syncFile_invariant (cs : ChangeSource) (pr : PRInfo)
    (approvers : List String) (st : SyncState) (f : SQLFile)
    (base : List String) (h : InsertInv base st) :
    InsertInv base (syncFile cs pr approvers st f) := by
  obtain ⟨h1, h2, h3, h4⟩ := h
  cases hcn : containsName st.existing (scriptNameOf f.filename) with
  | true =>
    have hred : syncFile cs pr approvers st f =
        { st with skipped := st.skipped + 1 } := by simp [syncFile, hcn]
    rw [hred]
    exact ⟨h1, h2, h3, h4⟩
  | false =>
    cases hc : cs.contentOf f.filename with
    | none =>
      have hred : syncFile cs pr approvers st f =
          { st with skipped := st.skipped + 1 } := by simp [syncFile, hcn, hc]
      rw [hred]
      exact ⟨h1, h2, h3, h4⟩
    | some content =>
      cases hce : content == "" with
      | true =>
        have hred : syncFile cs pr approvers st f =
            { st with skipped := st.skipped + 1 } := by
          simp [syncFile, hcn, hc, hce]
        rw [hred]
        exact ⟨h1, h2, h3, h4⟩
      | false =>
        have hbase : containsName base (scriptNameOf f.filename) = false := by
          cases hb : containsName base (scriptNameOf f.filename) with
          | false => rfl
          | true =>
            have := h4 _ hb
            simp [hcn] at this
        have hnotins :
            scriptNameOf f.filename ∉ st.inserted.map ScriptInsert.scriptName := by
          intro hmem
          obtain ⟨entry, hent, hname⟩ := List.mem_map.mp hmem
          have := h3 entry hent
          rw [hname] at this
          simp [hcn] at this
        have hred : syncFile cs pr approvers st f =
            { st with
              synced := st.synced + 1
              existing := scriptNameOf f.filename :: st.existing
              inserted := st.inserted ++
                [{ scriptName := scriptNameOf f.filename
                   scriptContent := content
                   targetDatabase := syncTargetFor f.filename content
                   githubPrUrl := pr.html_url
                   approvers := approvers
                   directProd :=
                     (parseSQLMetadata content).directProd == some true }] } := by
          simp [syncFile, hcn, hc, hce]
        rw [hred]
        refine ⟨?_, ?_, ?_, ?_⟩
        · intro entry hent
          rcases List.mem_append.mp hent with hold | hnew
          · exact h1 entry hold
          · rw [List.mem_singleton.mp hnew]
            exact hbase
        · rw [List.map_append]
          refine List.Nodup.append h2 (List.nodup_singleton _) ?_
          intro a ha hb
          rw [List.mem_singleton.mp hb] at ha
          exact hnotins ha
        · intro entry hent
          rcases List.mem_append.mp hent with hold | hnew
          · rw [containsName_cons, h3 entry hold, Bool.or_true]
          · rw [List.mem_singleton.mp hnew]
            exact containsName_self _ _
        · intro n hn
          rw [containsName_cons, h4 n hn, Bool.or_true]

theorem syncFiles_invariant (cs : ChangeSource) (pr : PRInfo)
    (approvers : List String) (base : List String) :
    ∀ (fs : List SQLFile) (st : SyncState),
      InsertInv base st → InsertInv base (syncFiles cs pr approvers st fs) := by
  intro fs
  induction fs with
  | nil => intro st h; simpa [syncFiles] using h
  | cons g gs ih =>
    intro st h
    simp only [syncFiles]
    exact ih _ (syncFile_invariant cs pr approvers st g base h)

theorem syncPR_invariant (cs : ChangeSource) (minA : Nat) (folder : String)
    (st : SyncState) (pr : PRInfo) (base : List String)
    (h : InsertInv base st) :
    InsertInv base (syncPR cs minA folder st pr) := by
  simp only [syncPR]
  split
  · exact h
  · split
    · exact h
    · exact syncFiles_invariant cs pr _ base _ st h

theorem syncPRs_invariant (cs : ChangeSource) (minA : Nat) (folder : String)
    (base : List String) :
    ∀ (prs : List PRInfo) (st : SyncState),
      InsertInv base st → InsertInv base (syncPRs cs minA folder st prs) := by
  intro prs
  induction prs with
  | nil => intro st h; simpa [syncPRs] using h
  | cons q qs ih =>
    intro st h
    simp only [syncPRs]
    exact ih _ (syncPR_invariant cs minA folder st q base h)

/-- C5: syncing twice against an unchanged change source inserts nothing on
the second run — every eligible file's script name is by then among the
existing names and the item is skipped rather than re-inserted — and a
single run never duplicates a name: no inserted entry carries a name that
was already in the ledger, and the names inserted in one pass are pairwise
distinct (so no ledger entry is duplicated and no stored entry is ever
rewritten). -/
theorem c5_sync_idempotent (cs : ChangeSource) (names : List String)
    (minA : Nat) (folder : String) :
    (syncScriptsFromGitHub cs
      (syncScriptsFromGitHub cs names minA folder).existing minA
      folder).inserted = [] ∧
    (syncScriptsFromGitHub cs
      (syncScriptsFromGitHub cs names minA folder).existing minA
      folder).synced = 0 ∧
    (syncScriptsFromGitHub cs
      (syncScriptsFromGitHub cs names minA folder).existing minA
      folder).existing = (syncScriptsFromGitHub cs names minA folder).existing ∧
    (∀ entry ∈ (syncScriptsFromGitHub cs names minA folder).inserted,
      containsName names entry.scriptName = false) ∧
    ((syncScriptsFromGitHub cs names minA folder).inserted.map
      ScriptInsert.scriptName).Nodup := by
  have hinv0 : InsertInv names
      { synced := 0, skipped := 0, errors := 0
        existing := names, inserted := [] } := by
    refine ⟨?_, ?_, ?_, ?_⟩
    · intro entry hent
      cases hent
    · exact List.nodup_nil
    · intro entry hent
      cases hent
    · intro n hn
      exact hn
  have hinv : InsertInv names (syncScriptsFromGitHub cs names minA folder) :=
    syncPRs_invariant cs minA folder names cs.mergedPRs _ hinv0
  have hno := syncPRs_no_new cs minA folder cs.mergedPRs
    { synced := 0, skipped := 0, errors := 0
      existing := (syncScriptsFromGitHub cs names minA folder).existing
      inserted := [] }
    (by
      intro pr hpr hgate f hf c hc hne
      exact syncPRs_covers cs minA folder cs.mergedPRs
        { synced := 0, skipped := 0, errors := 0
          existing := names, inserted := [] } pr hpr hgate f hf c hc hne)
  exact ⟨hno.2.1, hno.2.2, hno.1, hinv.1, hinv.2.1⟩

/-- Witness for C5 at a concrete one-PR change source: the second pass
inserts nothing, and the entry inserted by the first pass has a name absent
from the initially empty ledger. -/
theorem c5_witness :
    (syncScriptsFromGitHub sampleSource
      (syncScriptsFromGitHub sampleSource ([] : List String) 2 "").existing
      2 "").inserted = [] ∧
    containsName ([] : List String) sampleEntry.scriptName = false :=
  ⟨(c5_sync_idempotent sampleSource [] 2 "").1,
    (c5_sync_idempotent sampleSource [] 2 "").2.2.2.1 sampleEntry (by decide)⟩

end GitForSQL
